import Mathlib

/-!
# CatalogueInspectorWidget

A shallow embedding of `gui/src/Catalogue/CatalogueInspectorWidget.cpp`.

The widget is a form bound to three kinds of domain objects that live on the
heap behind `std::shared_ptr`: catalogues, events and event products.  The
embedding passes the whole world explicitly:

* the heap of domain objects (`Model`), addressed by pointers,
* the form fields (`Ui`),
* the three displayed-object pointers (`CatalogueInspectorWidgetPrivate`),
* the `QObject::signalsBlocked` flag of the inspector,
* the log of the signals the inspector has emitted.

A member function that dereferences a null `shared_ptr` has no defined
result; such a call returns `none`.
-/

namespace SciQLop

/-! ## Library types -/

/-- Text of the Qt string class, as the list of its characters.  (Qt stores a
character outside the basic plane as two code units, neither of which is
whitespace, so comparison and splitting at whitespace agree with the list
view.) -/
abbrev QString := List Char

/-- Seconds since the epoch.  The source holds them in a `double`; the widget
only stores, copies and compares them. -/
abbrev Time := Int

/-- Value held by a date-time edit field. -/
abbrev QDateTime := Int

/-- Address held by a non-null `std::shared_ptr`. -/
abbrev Ptr := Nat

/-- Modelled from the spec: the header `Common/DateUtils.h` is not part of the
sources.  Its two conversions between seconds since the epoch and the value of
a date-time field are taken as parameters; nothing is assumed about them. -/
structure DateUtils where
  dateTime : Time → QDateTime
  secondsSinceEpoch : QDateTime → Time

/-- Whitespace as matched by `\s` in `QRegExp` (the same set as
`QChar::isSpace`): U+0009..U+000D, U+0085 and the Unicode separator
categories Zs, Zl and Zp.  The results below about splitting hold for any
such set; the round trip through the tags field uses only that U+0020 is in
it. -/
def isSpace (c : Char) : Bool :=
  let u := c.toNat
  u == 0x20 || (0x09 ≤ u && u ≤ 0x0d) || u == 0x85 || u == 0xa0 || u == 0x1680 ||
    (0x2000 ≤ u && u ≤ 0x200a) || u == 0x2028 || u == 0x2029 || u == 0x202f ||
    u == 0x205f || u == 0x3000

/-- The loop of `QString::split(const QRegExp &, SkipEmptyParts)` for the
pattern `\s+`, over the part of the string that is still unread.  `part` is
the text up to the leftmost match (`mid(start, end - start)`); `rest` starts
at the match when there is one.  The match is the longest run of whitespace
there, and the text after it is read by the next round.  A part is appended
only when it is not empty (`start != end`, and `start != size()` after the
loop).  One round consumes at least one character, so `fuel` rounds suffice
for a text shorter than `fuel`. -/
def splitLoop : Nat → List Char → List QString
  | 0, _ => []
  | fuel + 1, unread =>
    let part := unread.takeWhile (fun c => !isSpace c)
    let rest := unread.dropWhile (fun c => !isSpace c)
    match rest with
    | [] => if part ≠ [] then [part] else []
    | _ :: _ => (if part ≠ [] then [part] else []) ++ splitLoop fuel (rest.dropWhile isSpace)

/-- The call `text.split(QRegExp("\\s+"), QString::SkipEmptyParts)`. -/
def split (text : QString) : List QString :=
  splitLoop (text.length + 1) text

/-- The call `QStringList::join(sep)`. -/
def join (list : List QString) (sep : QString) : QString :=
  List.intercalate sep list

/-! ## Domain objects -/

/-- Modelled from the spec: the class `DBCatalogue` is declared outside the
sources.  It carries the attributes the widget reads and writes. -/
structure DBCatalogue where
  name : QString
  author : QString
  deriving DecidableEq, Repr

/-- Modelled from the spec: the class `DBEventProduct` is declared outside the
sources.  It carries the attributes the widget reads and writes. -/
structure DBEventProduct where
  productId : QString
  tStart : Time
  tEnd : Time
  deriving DecidableEq, Repr

/-- Modelled from the spec: the class `DBEvent` is declared outside the
sources.  It carries the attributes the widget reads and writes; its event
products are held by value. -/
structure DBEvent where
  name : QString
  tagsNames : List QString
  eventProducts : List DBEventProduct
  tStart : Time
  tEnd : Time
  deriving DecidableEq, Repr

def DBCatalogue.getName (c : DBCatalogue) : QString := c.name
def DBCatalogue.setName (c : DBCatalogue) (name : QString) : DBCatalogue := { c with name := name }
def DBCatalogue.getAuthor (c : DBCatalogue) : QString := c.author
def DBCatalogue.setAuthor (c : DBCatalogue) (author : QString) : DBCatalogue :=
  { c with author := author }

def DBEventProduct.getProductId (p : DBEventProduct) : QString := p.productId
def DBEventProduct.setProductId (p : DBEventProduct) (productId : QString) : DBEventProduct :=
  { p with productId := productId }
def DBEventProduct.getTStart (p : DBEventProduct) : Time := p.tStart
def DBEventProduct.setTStart (p : DBEventProduct) (tStart : Time) : DBEventProduct :=
  { p with tStart := tStart }
def DBEventProduct.getTEnd (p : DBEventProduct) : Time := p.tEnd
def DBEventProduct.setTEnd (p : DBEventProduct) (tEnd : Time) : DBEventProduct :=
  { p with tEnd := tEnd }

def DBEvent.getName (e : DBEvent) : QString := e.name
def DBEvent.setName (e : DBEvent) (name : QString) : DBEvent := { e with name := name }
def DBEvent.getTagsNames (e : DBEvent) : List QString := e.tagsNames
def DBEvent.setTagsNames (e : DBEvent) (tagsNames : List QString) : DBEvent :=
  { e with tagsNames := tagsNames }
def DBEvent.getEventProducts (e : DBEvent) : List DBEventProduct := e.eventProducts
def DBEvent.setEventProducts (e : DBEvent) (eventProducts : List DBEventProduct) : DBEvent :=
  { e with eventProducts := eventProducts }
def DBEvent.getTStart (e : DBEvent) : Time := e.tStart
def DBEvent.getTEnd (e : DBEvent) : Time := e.tEnd

/-- The heap of domain objects: what each pointer points to. -/
structure Model where
  catalogues : Ptr → DBCatalogue
  events : Ptr → DBEvent
  eventProducts : Ptr → DBEventProduct

/-- Call of a mutating member function through a catalogue pointer. -/
def Model.onCatalogue (m : Model) (c : Ptr) (f : DBCatalogue → DBCatalogue) : Model :=
  { m with catalogues := Function.update m.catalogues c (f (m.catalogues c)) }

/-- Call of a mutating member function through an event pointer. -/
def Model.onEvent (m : Model) (e : Ptr) (f : DBEvent → DBEvent) : Model :=
  { m with events := Function.update m.events e (f (m.events e)) }

/-- Call of a mutating member function through an event product pointer. -/
def Model.onEventProduct (m : Model) (p : Ptr) (f : DBEventProduct → DBEventProduct) : Model :=
  { m with eventProducts := Function.update m.eventProducts p (f (m.eventProducts p)) }

/-! ## The form -/

/-- Pages of the stacked widget (`CatalogueInspectorWidget::Page`). -/
inductive Page where
  | Empty
  | CatalogueProperties
  | EventProperties
  deriving DecidableEq, Repr

/-- A line edit: the text that `setText` stores and `text` reads, and the
flag that `setEnabled` stores and `isEnabled` reads (the ancestors of the
field are taken to be enabled, and the text to fit the maximum length of the
field). -/
structure QLineEdit where
  text : QString
  enabled : Bool
  deriving DecidableEq, Repr

/-- A date-time edit: the value that `setDateTime` stores and `dateTime`
reads (taken to lie in the range the field accepts), and the enabled flag. -/
structure QDateTimeEdit where
  dateTime : QDateTime
  enabled : Bool
  deriving DecidableEq, Repr

/-- The stacked widget holds one page per value of `Page`; the source casts
the page to the index and back. -/
structure QStackedWidget where
  currentIndex : Page
  deriving DecidableEq, Repr

/-- Fields of `Ui::CatalogueInspectorWidget` that the source touches. -/
structure Ui where
  stackedWidget : QStackedWidget
  leCatalogueName : QLineEdit
  leCatalogueAuthor : QLineEdit
  leEventName : QLineEdit
  leEventTags : QLineEdit
  leEventProduct : QLineEdit
  dateTimeEventTStart : QDateTimeEdit
  dateTimeEventTEnd : QDateTimeEdit
  deriving DecidableEq, Repr

/-- The three displayed objects; `none` is the null pointer. -/
structure CatalogueInspectorWidgetPrivate where
  m_DisplayedCatalogue : Option Ptr := none
  m_DisplayedEvent : Option Ptr := none
  m_DisplayedEventProduct : Option Ptr := none
  deriving DecidableEq, Repr

/-- Signals of the inspector, with the pointer they carry. -/
inductive Signal where
  | catalogueUpdated (catalogue : Ptr)
  | eventUpdated (event : Ptr)
  deriving DecidableEq, Repr

/-- The inspector together with the heap it points into and the signals it
has emitted so far. -/
structure State where
  ui : Ui
  impl : CatalogueInspectorWidgetPrivate
  signalsBlocked : Bool
  model : Model
  emitted : List Signal

/-- The call `QObject::blockSignals(block)` on the inspector. -/
def blockSignals (s : State) (block : Bool) : State :=
  { s with signalsBlocked := block }

/-- The statement `emit inspector->signal(...)`: a blocked object emits
nothing. -/
def emit (s : State) (signal : Signal) : State :=
  if s.signalsBlocked then s else { s with emitted := s.emitted ++ [signal] }

/-- Constructor.  `ui0` is the form as `setupUi` builds it and `model` the
heap at that time.  Connecting the handlers and setting the display format of
the date fields leave the state as it is. -/
def CatalogueInspectorWidget (ui0 : Ui) (model : Model) : State :=
  { ui := { ui0 with stackedWidget := { currentIndex := Page.Empty } }
    impl := {}
    signalsBlocked := false
    model := model
    emitted := [] }

def showPage (s : State) (page : Page) : State :=
  { s with ui := { s.ui with stackedWidget := { currentIndex := page } } }

def currentPage (s : State) : Page :=
  s.ui.stackedWidget.currentIndex

/-! ## Edit handlers

Each handler is the lambda connected to the `editingFinished` signal of the
field it is named after.  The text (or time) the user left in the field is
read from the state. -/

def leCatalogueNameEditingFinished (s : State) : Option State :=
  match s.impl.m_DisplayedCatalogue with
  | none => none
  | some c =>
    if s.ui.leCatalogueName.text ≠ (s.model.catalogues c).getName then
      let s := { s with
        model := s.model.onCatalogue c (fun o => o.setName s.ui.leCatalogueName.text) }
      some (emit s (Signal.catalogueUpdated c))
    else
      some s

def leCatalogueAuthorEditingFinished (s : State) : Option State :=
  match s.impl.m_DisplayedCatalogue with
  | none => none
  | some c =>
    if s.ui.leCatalogueAuthor.text ≠ (s.model.catalogues c).getAuthor then
      let s := { s with
        model := s.model.onCatalogue c (fun o => o.setAuthor s.ui.leCatalogueAuthor.text) }
      some (emit s (Signal.catalogueUpdated c))
    else
      some s

def leEventNameEditingFinished (s : State) : Option State :=
  match s.impl.m_DisplayedEvent with
  | none => none
  | some e =>
    if s.ui.leEventName.text ≠ (s.model.events e).getName then
      let s := { s with model := s.model.onEvent e (fun o => o.setName s.ui.leEventName.text) }
      some (emit s (Signal.eventUpdated e))
    else
      some s

def leEventTagsEditingFinished (s : State) : Option State :=
  let tags := split s.ui.leEventTags.text
  let tagNames := tags.foldl (fun l tag => l ++ [tag]) []
  match s.impl.m_DisplayedEvent with
  | none => none
  | some e =>
    if (s.model.events e).getTagsNames ≠ tagNames then
      let s := { s with model := s.model.onEvent e (fun o => o.setTagsNames tagNames) }
      some (emit s (Signal.eventUpdated e))
    else
      some s

def leEventProductEditingFinished (s : State) : Option State :=
  match s.impl.m_DisplayedEventProduct with
  | none => none
  | some p =>
    if s.ui.leEventProduct.text ≠ (s.model.eventProducts p).getProductId then
      let oldProductId := (s.model.eventProducts p).getProductId
      let model := s.model.onEventProduct p (fun o => o.setProductId s.ui.leEventProduct.text)
      match s.impl.m_DisplayedEvent with
      | none => none
      | some e =>
        let eventProducts := (model.events e).getEventProducts
        let eventProducts := eventProducts.map (fun eventProduct =>
          if eventProduct.getProductId = oldProductId then
            eventProduct.setProductId (model.eventProducts p).getProductId
          else eventProduct)
        let model := model.onEvent e (fun o => o.setEventProducts eventProducts)
        some (emit { s with model := model } (Signal.eventUpdated e))
    else
      some s

def dateTimeEventTStartEditingFinished (du : DateUtils) (s : State) : Option State :=
  let time := du.secondsSinceEpoch s.ui.dateTimeEventTStart.dateTime
  match s.impl.m_DisplayedEventProduct with
  | none => none
  | some p =>
    if time ≠ (s.model.eventProducts p).getTStart then
      let model := s.model.onEventProduct p (fun o => o.setTStart time)
      match s.impl.m_DisplayedEvent with
      | none => none
      | some e =>
        let eventProducts := (model.events e).getEventProducts
        let eventProducts := eventProducts.map (fun eventProduct =>
          if eventProduct.getProductId = (model.eventProducts p).getProductId then
            eventProduct.setTStart (model.eventProducts p).getTStart
          else eventProduct)
        let model := model.onEvent e (fun o => o.setEventProducts eventProducts)
        some (emit { s with model := model } (Signal.eventUpdated e))
    else
      some s

def dateTimeEventTEndEditingFinished (du : DateUtils) (s : State) : Option State :=
  let time := du.secondsSinceEpoch s.ui.dateTimeEventTEnd.dateTime
  match s.impl.m_DisplayedEventProduct with
  | none => none
  | some p =>
    if time ≠ (s.model.eventProducts p).getTEnd then
      let model := s.model.onEventProduct p (fun o => o.setTEnd time)
      match s.impl.m_DisplayedEvent with
      | none => none
      | some e =>
        let eventProducts := (model.events e).getEventProducts
        let eventProducts := eventProducts.map (fun eventProduct =>
          if eventProduct.getProductId = (model.eventProducts p).getProductId then
            eventProduct.setTEnd (model.eventProducts p).getTEnd
          else eventProduct)
        let model := model.onEvent e (fun o => o.setEventProducts eventProducts)
        some (emit { s with model := model } (Signal.eventUpdated e))
    else
      some s

/-! ## Display operations

The pointer arguments may be null (`none`). -/

def setEvent (du : DateUtils) (s : State) (event : Option Ptr) : Option State :=
  let s := { s with impl := { s.impl with m_DisplayedEvent := event } }
  let s := blockSignals s true
  let s := showPage s Page.EventProperties
  match event with
  | none => none
  | some e =>
    let ev := s.model.events e
    let eventProducts := ev.getEventProducts
    let eventProductList := eventProducts.foldl (fun l evtProduct => l ++ [evtProduct.getProductId]) []
    let tags := ev.getTagsNames
    let tagList := tags.foldl (fun l tag => (l ++ tag) ++ [' ']) []
    let s := { s with ui := { s.ui with
      leEventName := { enabled := true, text := ev.getName }
      leEventProduct := { enabled := false, text := join eventProductList [';'] }
      leEventTags := { enabled := true, text := tagList }
      dateTimeEventTStart := { enabled := false, dateTime := du.dateTime ev.getTStart }
      dateTimeEventTEnd := { enabled := false, dateTime := du.dateTime ev.getTEnd } } }
    some (blockSignals s false)

def setEventProduct (du : DateUtils) (s : State) (event eventProduct : Option Ptr) :
    Option State :=
  let s := { s with impl := { s.impl with
    m_DisplayedEvent := event, m_DisplayedEventProduct := eventProduct } }
  let s := blockSignals s true
  let s := showPage s Page.EventProperties
  match event, eventProduct with
  | some e, some p =>
    let ev := s.model.events e
    let prod := s.model.eventProducts p
    let s := { s with ui := { s.ui with
      leEventName := { enabled := false, text := ev.getName }
      leEventProduct := { enabled := false, text := prod.getProductId }
      leEventTags := { enabled := false, text := [] }
      dateTimeEventTStart := { enabled := true, dateTime := du.dateTime prod.getTStart }
      dateTimeEventTEnd := { enabled := true, dateTime := du.dateTime prod.getTEnd } } }
    some (blockSignals s false)
  | _, _ => none

def setCatalogue (s : State) (catalogue : Option Ptr) : Option State :=
  let s := { s with impl := { s.impl with m_DisplayedCatalogue := catalogue } }
  let s := blockSignals s true
  let s := showPage s Page.CatalogueProperties
  match catalogue with
  | none => none
  | some c =>
    let cat := s.model.catalogues c
    let s := { s with ui := { s.ui with
      leCatalogueName := { s.ui.leCatalogueName with text := cat.getName }
      leCatalogueAuthor := { s.ui.leCatalogueAuthor with text := cat.getAuthor } } }
    some (blockSignals s false)

def refresh (du : DateUtils) (s : State) : Option State :=
  match s.ui.stackedWidget.currentIndex with
  | Page.CatalogueProperties => setCatalogue s s.impl.m_DisplayedCatalogue
  | Page.EventProperties =>
    let isEventShowed := s.ui.leEventName.enabled
    match setEvent du s s.impl.m_DisplayedEvent with
    | none => none
    | some s =>
      if !isEventShowed && s.impl.m_DisplayedEvent.isSome then
        setEventProduct du s s.impl.m_DisplayedEvent s.impl.m_DisplayedEventProduct
      else
        some s
  | Page.Empty => some s

/-! ## Specification vocabulary -/

/-- The relation `Runs text runs` holds when `runs` lists, in order of
appearance, the maximal runs of non-whitespace characters of `text`: the text
is read from the left, a whitespace character is skipped, and a run is a
non-empty stretch of non-whitespace characters that is followed by a
whitespace character or by the end of the text. -/
inductive Runs : List Char → List QString → Prop
  | done : Runs [] []
  | space (c : Char) (text : List Char) (runs : List QString) :
      isSpace c = true → Runs text runs → Runs (c :: text) runs
  | run (r text : List Char) (runs : List QString) :
      r ≠ [] → (∀ c ∈ r, isSpace c = false) → (∀ c, text.head? = some c → isSpace c = true) →
      Runs text runs → Runs (r ++ text) (r :: runs)

/-- States the inspector can be in after construction and any sequence of
`setCatalogue`, `setEvent`, `setEventProduct` with non-null arguments and of
`refresh`. -/
inductive Reachable (du : DateUtils) : State → Prop
  | init (ui0 : Ui) (model : Model) : Reachable du (CatalogueInspectorWidget ui0 model)
  | setCatalogue (s s' : State) (c : Ptr) :
      Reachable du s → setCatalogue s (some c) = some s' → Reachable du s'
  | setEvent (s s' : State) (e : Ptr) :
      Reachable du s → setEvent du s (some e) = some s' → Reachable du s'
  | setEventProduct (s s' : State) (e p : Ptr) :
      Reachable du s → setEventProduct du s (some e) (some p) = some s' → Reachable du s'
  | refresh (s s' : State) :
      Reachable du s → refresh du s = some s' → Reachable du s'

/-- The enabled flags of the five event fields: name, product, tags, start
time, end time. -/
def eventFlags (s : State) : Bool × Bool × Bool × Bool × Bool :=
  (s.ui.leEventName.enabled, s.ui.leEventProduct.enabled, s.ui.leEventTags.enabled,
    s.ui.dateTimeEventTStart.enabled, s.ui.dateTimeEventTEnd.enabled)

/-- The enabled flags of all seven fields of the form. -/
def enabledFlags (s : State) : Bool × Bool × Bool × Bool × Bool × Bool × Bool :=
  (s.ui.leCatalogueName.enabled, s.ui.leCatalogueAuthor.enabled, eventFlags s)

/-- On the event page the flags of the event fields are those that `setEvent`
or `setEventProduct` leave. -/
def RenderedFlags (s : State) : Prop :=
  currentPage s = Page.EventProperties →
    eventFlags s = (true, false, true, false, false) ∨
    eventFlags s = (false, false, false, true, true)

/-- What `refresh` relies on: a page that shows an object has that object. -/
def DisplayedNonNull (s : State) : Prop :=
  (currentPage s = Page.CatalogueProperties → s.impl.m_DisplayedCatalogue ≠ none) ∧
  (currentPage s = Page.EventProperties → s.impl.m_DisplayedEvent ≠ none) ∧
  (currentPage s = Page.EventProperties → s.ui.leEventName.enabled = false →
    s.impl.m_DisplayedEventProduct ≠ none)

/-! ## A sample world -/

/-- Date-time fields in milliseconds. -/
def sampleDateUtils : DateUtils :=
  { dateTime := fun t => 1000 * t
    secondsSinceEpoch := fun q => q / 1000 }

def sampleModel : Model :=
  { catalogues := fun _ => { name := "storms".toList, author := "lpp".toList }
    events := fun _ =>
      { name := "crossing".toList
        tagsNames := ["shock".toList, "mms".toList]
        eventProducts :=
          [{ productId := "b_gse".toList, tStart := 10, tEnd := 20 },
           { productId := "e_gse".toList, tStart := 12, tEnd := 18 },
           { productId := "b_gse".toList, tStart := 30, tEnd := 40 }]
        tStart := 10
        tEnd := 40 }
    eventProducts := fun _ => { productId := "b_gse".toList, tStart := 10, tEnd := 20 } }

def sampleUi : Ui :=
  { stackedWidget := { currentIndex := Page.Empty }
    leCatalogueName := { text := [], enabled := true }
    leCatalogueAuthor := { text := [], enabled := true }
    leEventName := { text := [], enabled := true }
    leEventTags := { text := [], enabled := true }
    leEventProduct := { text := [], enabled := true }
    dateTimeEventTStart := { dateTime := 0, enabled := true }
    dateTimeEventTEnd := { dateTime := 0, enabled := true } }

/-- The widget right after construction. -/
def sampleWidget : State := CatalogueInspectorWidget sampleUi sampleModel

/-- The widget after `setEventProduct` of event 2 and event product 3. -/
def productShown : State :=
  (setEventProduct sampleDateUtils sampleWidget (some 2) (some 3)).getD sampleWidget

/-- An inspector that shows catalogue 1, event 2 and event product 3 and in
which the user has typed into every field. -/
def editedState : State :=
  { ui :=
      { stackedWidget := { currentIndex := Page.EventProperties }
        leCatalogueName := { text := "gales".toList, enabled := true }
        leCatalogueAuthor := { text := "lpp".toList, enabled := true }
        leEventName := { text := "bow shock".toList, enabled := false }
        leEventTags := { text := "  shock   bow ".toList, enabled := false }
        leEventProduct := { text := "b_gsm".toList, enabled := false }
        dateTimeEventTStart := { dateTime := 15000, enabled := true }
        dateTimeEventTEnd := { dateTime := 20000, enabled := true } }
    impl := { m_DisplayedCatalogue := some 1, m_DisplayedEvent := some 2,
              m_DisplayedEventProduct := some 3 }
    signalsBlocked := false
    model := sampleModel
    emitted := [] }

/-- An inspector on the event page whose name field is enabled while its tags
field is disabled. -/
def unrenderedState : State :=
  { ui :=
      { stackedWidget := { currentIndex := Page.EventProperties }
        leCatalogueName := { text := [], enabled := true }
        leCatalogueAuthor := { text := [], enabled := true }
        leEventName := { text := "crossing".toList, enabled := true }
        leEventTags := { text := [], enabled := false }
        leEventProduct := { text := "b_gse".toList, enabled := false }
        dateTimeEventTStart := { dateTime := 10000, enabled := true }
        dateTimeEventTEnd := { dateTime := 20000, enabled := true } }
    impl := { m_DisplayedCatalogue := some 1, m_DisplayedEvent := some 2,
              m_DisplayedEventProduct := some 3 }
    signalsBlocked := false
    model := sampleModel
    emitted := [] }

/-! ## Splitting at whitespace -/

theorem takeWhile_append_dropWhile_eq (q : Char → Bool) (l : List Char) :
    l.takeWhile q ++ l.dropWhile q = l := by
  induction l with
  | nil => rfl
  | cons a l ih =>
    by_cases h : q a = true
    · simp [List.takeWhile, List.dropWhile, h, ih]
    · simp [List.takeWhile, List.dropWhile, h]

theorem dropWhile_head_false (q : Char → Bool) (l : List Char) (c : Char) (r : List Char)
    (h : l.dropWhile q = c :: r) : q c = false := by
  induction l with
  | nil => simp at h
  | cons a l ih =>
    by_cases ha : q a = true
    · rw [List.dropWhile_cons_of_pos ha] at h
      exact ih h
    · rw [List.dropWhile_cons_of_neg ha] at h
      have hc : a = c := by injection h
      subst hc
      simpa using ha

theorem length_dropWhile_le (q : Char → Bool) (l : List Char) :
    (l.dropWhile q).length ≤ l.length := by
  induction l with
  | nil => simp
  | cons a l ih =>
    by_cases ha : q a = true
    · rw [List.dropWhile_cons_of_pos ha]
      simp only [List.length_cons]
      omega
    · rw [List.dropWhile_cons_of_neg ha]

theorem mem_takeWhile_imp (q : Char → Bool) (l : List Char) (c : Char)
    (h : c ∈ l.takeWhile q) : q c = true := by
  induction l with
  | nil => simp at h
  | cons a l ih =>
    by_cases ha : q a = true
    · rw [List.takeWhile_cons_of_pos ha] at h
      rcases List.mem_cons.1 h with h | h
      · rw [h]; exact ha
      · exact ih h
    · rw [List.takeWhile_cons_of_neg ha] at h
      simp at h

theorem runs_dropSpaces (l : List Char) (runs : List QString)
    (h : Runs (l.dropWhile isSpace) runs) : Runs l runs := by
  induction l with
  | nil => simpa using h
  | cons a l ih =>
    by_cases ha : isSpace a = true
    · rw [List.dropWhile_cons_of_pos ha] at h
      exact Runs.space a l runs ha (ih h)
    · rw [List.dropWhile_cons_of_neg ha] at h
      exact h

theorem runs_splitLoop (fuel : Nat) :
    ∀ text : List Char, text.length < fuel → Runs text (splitLoop fuel text) := by
  induction fuel with
  | zero => intro text h; omega
  | succ fuel ih =>
    intro text hlen
    have hsplit := takeWhile_append_dropWhile_eq (fun c => !isSpace c) text
    have hpart : ∀ c ∈ text.takeWhile (fun c => !isSpace c), isSpace c = false := by
      intro c hc
      simpa using mem_takeWhile_imp _ _ _ hc
    unfold splitLoop
    simp only
    cases hrest : text.dropWhile (fun c => !isSpace c) with
    | nil =>
      rw [hrest, List.append_nil] at hsplit
      simp only
      by_cases hp : text.takeWhile (fun c => !isSpace c) = []
      · rw [if_neg (by simpa using hp)]
        rw [hp] at hsplit
        rw [← hsplit]
        exact Runs.done
      · rw [if_pos hp]
        have := Runs.run _ [] [] hp hpart (by simp) Runs.done
        rw [List.append_nil, hsplit] at this
        rw [hsplit]
        exact this
    | cons c r =>
      simp only
      have hc : isSpace c = true := by
        simpa using dropWhile_head_false _ _ _ _ hrest
      have hlen2 : (List.dropWhile isSpace (c :: r)).length < fuel := by
        rw [List.dropWhile_cons_of_pos hc]
        have h1 := length_dropWhile_le isSpace r
        have h2 : text.length = (text.takeWhile (fun c => !isSpace c)).length + (c :: r).length := by
          rw [← List.length_append, ← hrest, hsplit]
        simp only [List.length_cons] at h2
        omega
      have hrec := runs_dropSpaces (c :: r) _ (ih _ hlen2)
      by_cases hp : text.takeWhile (fun c => !isSpace c) = []
      · rw [if_neg (by simpa using hp)]
        rw [hp, hrest] at hsplit
        rw [← hsplit]
        simpa using hrec
      · rw [if_pos hp]
        have happ : text.takeWhile (fun c => !isSpace c) ++ c :: r = text := by
          rw [← hrest]
          exact hsplit
        have := Runs.run _ (c :: r) _ hp hpart (by simp [hc]) hrec
        rw [happ] at this
        simpa using this

theorem runs_split (text : QString) : Runs text (split text) :=
  runs_splitLoop (text.length + 1) text (Nat.lt_succ_self _)

theorem runs_inv (text : List Char) (runs : List QString) (h : Runs text runs) :
    (text = [] ∧ runs = []) ∨
    (∃ c rest, text = c :: rest ∧ isSpace c = true ∧ Runs rest runs) ∨
    (∃ r rest runs', text = r ++ rest ∧ runs = r :: runs' ∧ r ≠ [] ∧
      (∀ c ∈ r, isSpace c = false) ∧ (∀ c, rest.head? = some c → isSpace c = true) ∧
      Runs rest runs') := by
  cases h with
  | done => exact Or.inl ⟨rfl, rfl⟩
  | space c rest _ hc hr => exact Or.inr (Or.inl ⟨c, rest, rfl, hc, hr⟩)
  | run r rest runs' hne hr hh hrest =>
    exact Or.inr (Or.inr ⟨r, rest, runs', rfl, rfl, hne, hr, hh, hrest⟩)

theorem takeWhile_run_append (r rest : List Char) (hr : ∀ c ∈ r, isSpace c = false)
    (hh : ∀ c, rest.head? = some c → isSpace c = true) :
    (r ++ rest).takeWhile (fun c => !isSpace c) = r ∧
    (r ++ rest).dropWhile (fun c => !isSpace c) = rest := by
  induction r with
  | nil =>
    cases rest with
    | nil => simp
    | cons a rest =>
      have ha : isSpace a = true := hh a rfl
      simp [List.takeWhile, List.dropWhile, ha]
  | cons a r ih =>
    have ha : isSpace a = false := hr a (List.mem_cons_self _ _)
    have ih2 := ih (fun c hc => hr c (List.mem_cons_of_mem _ hc))
    simp [List.takeWhile, List.dropWhile, ha, ih2.1, ih2.2]

theorem runs_unique_aux (n : Nat) :
    ∀ (text : List Char) (r1 r2 : List QString), text.length ≤ n →
      Runs text r1 → Runs text r2 → r1 = r2 := by
  induction n with
  | zero =>
    intro text r1 r2 hlen h1 h2
    have ht : text = [] := List.length_eq_zero.1 (Nat.le_zero.1 hlen)
    subst ht
    rcases runs_inv _ _ h1 with ⟨_, e1⟩ | ⟨c, rest, e, _⟩ | ⟨r, rest, rs, e, _, hne, _⟩
    · rcases runs_inv _ _ h2 with ⟨_, e2⟩ | ⟨c, rest, e, _⟩ | ⟨r, rest, rs, e, _, hne, _⟩
      · rw [e1, e2]
      · simp at e
      · exact absurd (List.append_eq_nil.1 e.symm).1 hne
    · simp at e
    · exact absurd (List.append_eq_nil.1 e.symm).1 hne
  | succ n ih =>
    intro text r1 r2 hlen h1 h2
    rcases runs_inv _ _ h1 with ⟨et, e1⟩ | ⟨c, rest, e, hc, hrest⟩ |
      ⟨r, rest, rs, e, ers, hne, hr, hh, hrest⟩
    · subst et
      rcases runs_inv _ _ h2 with ⟨_, e2⟩ | ⟨c, rest, e, _⟩ | ⟨r, rest, rs, e, _, hne, _⟩
      · rw [e1, e2]
      · simp at e
      · exact absurd (List.append_eq_nil.1 e.symm).1 hne
    · subst e
      rcases runs_inv _ _ h2 with ⟨et, _⟩ | ⟨c2, rest2, e, _, hrest2⟩ |
        ⟨r, rest2, rs, e, _, hne, hr, _⟩
      · simp at et
      · have hrr : rest = rest2 := by injection e
        subst hrr
        exact ih rest r1 r2 (by simp only [List.length_cons] at hlen; omega) hrest hrest2
      · cases r with
        | nil => exact absurd rfl hne
        | cons a r =>
          have hca : c = a := by injection e
          have := hr a (List.mem_cons_self _ _)
          rw [← hca, hc] at this
          cases this
    · rcases runs_inv _ _ h2 with ⟨et, _⟩ | ⟨c2, rest2, e2, hc2, _⟩ |
        ⟨r', rest', rs', e', ers', hne', hr', hh', hrest'⟩
      · rw [et] at e
        exact absurd (List.append_eq_nil.1 e.symm).1 hne
      · cases r with
        | nil => exact absurd rfl hne
        | cons a r =>
          rw [e2] at e
          have hca : c2 = a := by injection e
          have := hr a (List.mem_cons_self _ _)
          rw [← hca, hc2] at this
          cases this
      · have d1 := takeWhile_run_append r rest hr hh
        have d2 := takeWhile_run_append r' rest' hr' hh'
        rw [← e] at d1
        rw [← e'] at d2
        have er : r = r' := d1.1.symm.trans d2.1
        have erest : rest = rest' := d1.2.symm.trans d2.2
        subst er
        subst erest
        have hlt : rest.length ≤ n := by
          have h3 : text.length = r.length + rest.length := by rw [e, List.length_append]
          have h4 : 0 < r.length := List.length_pos.2 hne
          omega
        rw [ers, ers', ih rest rs rs' hlt hrest hrest']

theorem runs_unique (text : List Char) (r1 r2 : List QString)
    (h1 : Runs text r1) (h2 : Runs text r2) : r1 = r2 :=
  runs_unique_aux text.length text r1 r2 (Nat.le_refl _) h1 h2

theorem runs_clean (text : List Char) (runs : List QString) (h : Runs text runs) :
    ∀ r ∈ runs, r ≠ [] ∧ ∀ c ∈ r, isSpace c = false := by
  induction h with
  | done => intro r hr; simp at hr
  | space c text runs _ _ ih => exact ih
  | run r text runs hne hr _ _ ih =>
    intro x hx
    rcases List.mem_cons.1 hx with hx | hx
    · rw [hx]; exact ⟨hne, hr⟩
    · exact ih x hx

theorem foldl_push_eq (l : List QString) (acc : List QString) :
    l.foldl (fun l tag => l ++ [tag]) acc = acc ++ l := by
  induction l generalizing acc with
  | nil => simp
  | cons a l ih => simp [ih]

/-! ## Edit handlers -/

theorem forall₂_map_of_forall (R : DBEventProduct → DBEventProduct → Prop)
    (f : DBEventProduct → DBEventProduct) (l : List DBEventProduct)
    (h : ∀ x ∈ l, R x (f x)) : List.Forall₂ R l (l.map f) := by
  induction l with
  | nil => exact List.Forall₂.nil
  | cons a l ih =>
    exact List.Forall₂.cons (h a (List.mem_cons_self _ _))
      (ih (fun x hx => h x (List.mem_cons_of_mem _ hx)))

/-- C1: each of the three plain text handlers (catalogue name, catalogue
author, event name) returns; when the field text differs from the attribute,
the attribute becomes the text, the other attributes of the object keep their
values and exactly one update signal carrying the displayed object is added;
when the text equals the attribute the state is left as it was. -/
theorem plain_text_handlers (s : State) (hb : s.signalsBlocked = false) :
    (∀ c, s.impl.m_DisplayedCatalogue = some c →
      ∃ s', leCatalogueNameEditingFinished s = some s' ∧
        (s.ui.leCatalogueName.text ≠ (s.model.catalogues c).getName →
          (s'.model.catalogues c).getName = s.ui.leCatalogueName.text ∧
          (s'.model.catalogues c).getAuthor = (s.model.catalogues c).getAuthor ∧
          s'.emitted = s.emitted ++ [Signal.catalogueUpdated c]) ∧
        (s.ui.leCatalogueName.text = (s.model.catalogues c).getName → s' = s)) ∧
    (∀ c, s.impl.m_DisplayedCatalogue = some c →
      ∃ s', leCatalogueAuthorEditingFinished s = some s' ∧
        (s.ui.leCatalogueAuthor.text ≠ (s.model.catalogues c).getAuthor →
          (s'.model.catalogues c).getAuthor = s.ui.leCatalogueAuthor.text ∧
          (s'.model.catalogues c).getName = (s.model.catalogues c).getName ∧
          s'.emitted = s.emitted ++ [Signal.catalogueUpdated c]) ∧
        (s.ui.leCatalogueAuthor.text = (s.model.catalogues c).getAuthor → s' = s)) ∧
    (∀ e, s.impl.m_DisplayedEvent = some e →
      ∃ s', leEventNameEditingFinished s = some s' ∧
        (s.ui.leEventName.text ≠ (s.model.events e).getName →
          (s'.model.events e).getName = s.ui.leEventName.text ∧
          (s'.model.events e).getTagsNames = (s.model.events e).getTagsNames ∧
          (s'.model.events e).getEventProducts = (s.model.events e).getEventProducts ∧
          (s'.model.events e).getTStart = (s.model.events e).getTStart ∧
          (s'.model.events e).getTEnd = (s.model.events e).getTEnd ∧
          s'.emitted = s.emitted ++ [Signal.eventUpdated e]) ∧
        (s.ui.leEventName.text = (s.model.events e).getName → s' = s)) := by
  refine ⟨?_, ?_, ?_⟩
  · intro c hc
    by_cases h : s.ui.leCatalogueName.text = (s.model.catalogues c).getName
    · exact ⟨s, by simp [leCatalogueNameEditingFinished, hc, h], fun hne => absurd h hne,
        fun _ => rfl⟩
    · let f : DBCatalogue → DBCatalogue := fun o => o.setName s.ui.leCatalogueName.text
      refine ⟨emit { s with model := s.model.onCatalogue c f } (Signal.catalogueUpdated c),
        by simp [leCatalogueNameEditingFinished, hc, h, f], fun _ => ?_, fun heq => absurd heq h⟩
      simp [emit, hb, Model.onCatalogue, DBCatalogue.getName, DBCatalogue.setName,
        DBCatalogue.getAuthor, f]
  · intro c hc
    by_cases h : s.ui.leCatalogueAuthor.text = (s.model.catalogues c).getAuthor
    · exact ⟨s, by simp [leCatalogueAuthorEditingFinished, hc, h], fun hne => absurd h hne,
        fun _ => rfl⟩
    · let f : DBCatalogue → DBCatalogue := fun o => o.setAuthor s.ui.leCatalogueAuthor.text
      refine ⟨emit { s with model := s.model.onCatalogue c f } (Signal.catalogueUpdated c),
        by simp [leCatalogueAuthorEditingFinished, hc, h, f], fun _ => ?_,
        fun heq => absurd heq h⟩
      simp [emit, hb, Model.onCatalogue, DBCatalogue.getName, DBCatalogue.setAuthor,
        DBCatalogue.getAuthor, f]
  · intro e he
    by_cases h : s.ui.leEventName.text = (s.model.events e).getName
    · exact ⟨s, by simp [leEventNameEditingFinished, he, h], fun hne => absurd h hne,
        fun _ => rfl⟩
    · let f : DBEvent → DBEvent := fun o => o.setName s.ui.leEventName.text
      refine ⟨emit { s with model := s.model.onEvent e f } (Signal.eventUpdated e),
        by simp [leEventNameEditingFinished, he, h, f], fun _ => ?_, fun heq => absurd heq h⟩
      simp [emit, hb, Model.onEvent, DBEvent.getName, DBEvent.setName, DBEvent.getTagsNames,
        DBEvent.getEventProducts, DBEvent.getTStart, DBEvent.getTEnd, f]

/-- C2: the tags handler returns; the list it computes from the field text is
the list of maximal runs of non-whitespace characters in order of appearance
(the only such list, with no empty string and no whitespace in any string);
when that list differs from the tag names of the displayed event, the tag
names become that list and one `eventUpdated` for the event is added; when it
is equal the state is left as it was. -/
theorem tags_handler (s : State) (e : Ptr) (hb : s.signalsBlocked = false)
    (he : s.impl.m_DisplayedEvent = some e) :
    Runs s.ui.leEventTags.text (split s.ui.leEventTags.text) ∧
    (∀ runs, Runs s.ui.leEventTags.text runs → runs = split s.ui.leEventTags.text) ∧
    (∀ r ∈ split s.ui.leEventTags.text, r ≠ [] ∧ ∀ c ∈ r, isSpace c = false) ∧
    ∃ s', leEventTagsEditingFinished s = some s' ∧
      ((s.model.events e).getTagsNames ≠ split s.ui.leEventTags.text →
        (s'.model.events e).getTagsNames = split s.ui.leEventTags.text ∧
        (s'.model.events e).getName = (s.model.events e).getName ∧
        (s'.model.events e).getEventProducts = (s.model.events e).getEventProducts ∧
        s'.emitted = s.emitted ++ [Signal.eventUpdated e]) ∧
      ((s.model.events e).getTagsNames = split s.ui.leEventTags.text → s' = s) := by
  have hfold : (split s.ui.leEventTags.text).foldl (fun l tag => l ++ [tag]) [] =
      split s.ui.leEventTags.text := by
    rw [foldl_push_eq]; rfl
  refine ⟨runs_split _, fun runs h => runs_unique _ _ _ h (runs_split _),
    runs_clean _ _ (runs_split _), ?_⟩
  by_cases h : (s.model.events e).getTagsNames = split s.ui.leEventTags.text
  · exact ⟨s, by simp [leEventTagsEditingFinished, he, hfold, h], fun hne => absurd h hne,
      fun _ => rfl⟩
  · let f : DBEvent → DBEvent := fun o => o.setTagsNames (split s.ui.leEventTags.text)
    refine ⟨emit { s with model := s.model.onEvent e f } (Signal.eventUpdated e),
      by simp [leEventTagsEditingFinished, he, hfold, h, f], fun _ => ?_,
      fun heq => absurd heq h⟩
    simp [emit, hb, Model.onEvent, DBEvent.getName, DBEvent.setTagsNames, DBEvent.getTagsNames,
      DBEvent.getEventProducts, f]

/-- C3: the start-time handler returns; when the time read from the field
differs from the start time of the displayed product, the displayed product
gets that start time (its end time and id stay), the products of the
displayed event keep their number, order, ids and end times, those with the id
of the displayed product get the start time, the others stay as they were,
and one `eventUpdated` is added; when the time is equal the state is left as
it was.  The end-time handler does the same with start and end exchanged. -/
theorem time_handlers (du : DateUtils) (s : State) (e p : Ptr)
    (hb : s.signalsBlocked = false) (he : s.impl.m_DisplayedEvent = some e)
    (hp : s.impl.m_DisplayedEventProduct = some p) :
    (∃ s', dateTimeEventTStartEditingFinished du s = some s' ∧
      (du.secondsSinceEpoch s.ui.dateTimeEventTStart.dateTime ≠
          (s.model.eventProducts p).getTStart →
        (s'.model.eventProducts p).getTStart =
          du.secondsSinceEpoch s.ui.dateTimeEventTStart.dateTime ∧
        (s'.model.eventProducts p).getTEnd = (s.model.eventProducts p).getTEnd ∧
        (s'.model.eventProducts p).getProductId = (s.model.eventProducts p).getProductId ∧
        (s'.model.events e).getEventProducts.length =
          (s.model.events e).getEventProducts.length ∧
        List.Forall₂ (fun old new =>
            new.getProductId = old.getProductId ∧ new.getTEnd = old.getTEnd ∧
            (old.getProductId = (s.model.eventProducts p).getProductId →
              new.getTStart = du.secondsSinceEpoch s.ui.dateTimeEventTStart.dateTime) ∧
            (old.getProductId ≠ (s.model.eventProducts p).getProductId → new = old))
          (s.model.events e).getEventProducts (s'.model.events e).getEventProducts ∧
        s'.emitted = s.emitted ++ [Signal.eventUpdated e]) ∧
      (du.secondsSinceEpoch s.ui.dateTimeEventTStart.dateTime =
          (s.model.eventProducts p).getTStart → s' = s)) ∧
    (∃ s', dateTimeEventTEndEditingFinished du s = some s' ∧
      (du.secondsSinceEpoch s.ui.dateTimeEventTEnd.dateTime ≠
          (s.model.eventProducts p).getTEnd →
        (s'.model.eventProducts p).getTEnd =
          du.secondsSinceEpoch s.ui.dateTimeEventTEnd.dateTime ∧
        (s'.model.eventProducts p).getTStart = (s.model.eventProducts p).getTStart ∧
        (s'.model.eventProducts p).getProductId = (s.model.eventProducts p).getProductId ∧
        (s'.model.events e).getEventProducts.length =
          (s.model.events e).getEventProducts.length ∧
        List.Forall₂ (fun old new =>
            new.getProductId = old.getProductId ∧ new.getTStart = old.getTStart ∧
            (old.getProductId = (s.model.eventProducts p).getProductId →
              new.getTEnd = du.secondsSinceEpoch s.ui.dateTimeEventTEnd.dateTime) ∧
            (old.getProductId ≠ (s.model.eventProducts p).getProductId → new = old))
          (s.model.events e).getEventProducts (s'.model.events e).getEventProducts ∧
        s'.emitted = s.emitted ++ [Signal.eventUpdated e]) ∧
      (du.secondsSinceEpoch s.ui.dateTimeEventTEnd.dateTime =
          (s.model.eventProducts p).getTEnd → s' = s)) := by
  constructor
  · by_cases h : du.secondsSinceEpoch s.ui.dateTimeEventTStart.dateTime =
        (s.model.eventProducts p).getTStart
    · exact ⟨s, by simp [dateTimeEventTStartEditingFinished, hp, h],
        fun hne => absurd h hne, fun _ => rfl⟩
    · have hrun : (dateTimeEventTStartEditingFinished du s).isSome = true := by
        simp only [dateTimeEventTStartEditingFinished, hp, he, ne_eq, h, not_false_eq_true,
          if_true, Option.isSome_some]
      obtain ⟨s', hs'⟩ := Option.isSome_iff_exists.1 hrun
      refine ⟨s', hs', fun _ => ?_, fun heq => absurd heq h⟩
      simp only [dateTimeEventTStartEditingFinished, hp, he, ne_eq, h, not_false_eq_true,
        if_true, Option.some.injEq] at hs'
      subst hs'
      refine ⟨?_, ?_, ?_, ?_, ?_, ?_⟩
      · simp [emit, hb, Model.onEvent, Model.onEventProduct, DBEventProduct.getTStart,
          DBEventProduct.setTStart]
      · simp [emit, hb, Model.onEvent, Model.onEventProduct, DBEventProduct.getTEnd,
          DBEventProduct.setTStart]
      · simp [emit, hb, Model.onEvent, Model.onEventProduct, DBEventProduct.getProductId,
          DBEventProduct.setTStart]
      · simp [emit, hb, Model.onEvent, Model.onEventProduct, DBEvent.getEventProducts,
          DBEvent.setEventProducts]
      · simp only [emit, hb, Model.onEvent, Model.onEventProduct, DBEvent.getEventProducts,
          DBEvent.setEventProducts, Function.update_same, Bool.false_eq_true, if_false]
        apply forall₂_map_of_forall
        intro x _
        by_cases hx : x.getProductId =
            (DBEventProduct.setTStart (s.model.eventProducts p)
              (du.secondsSinceEpoch s.ui.dateTimeEventTStart.dateTime)).getProductId
        · rw [if_pos hx]
          refine ⟨rfl, rfl, fun _ => rfl, fun h2 => absurd hx h2⟩
        · rw [if_neg hx]
          refine ⟨rfl, rfl, fun h2 => absurd h2 hx, fun _ => rfl⟩
      · simp [emit, hb]
  · by_cases h : du.secondsSinceEpoch s.ui.dateTimeEventTEnd.dateTime =
        (s.model.eventProducts p).getTEnd
    · exact ⟨s, by simp [dateTimeEventTEndEditingFinished, hp, h],
        fun hne => absurd h hne, fun _ => rfl⟩
    · have hrun : (dateTimeEventTEndEditingFinished du s).isSome = true := by
        simp only [dateTimeEventTEndEditingFinished, hp, he, ne_eq, h, not_false_eq_true,
          if_true, Option.isSome_some]
      obtain ⟨s', hs'⟩ := Option.isSome_iff_exists.1 hrun
      refine ⟨s', hs', fun _ => ?_, fun heq => absurd heq h⟩
      simp only [dateTimeEventTEndEditingFinished, hp, he, ne_eq, h, not_false_eq_true,
        if_true, Option.some.injEq] at hs'
      subst hs'
      refine ⟨?_, ?_, ?_, ?_, ?_, ?_⟩
      · simp [emit, hb, Model.onEvent, Model.onEventProduct, DBEventProduct.getTEnd,
          DBEventProduct.setTEnd]
      · simp [emit, hb, Model.onEvent, Model.onEventProduct, DBEventProduct.getTStart,
          DBEventProduct.setTEnd]
      · simp [emit, hb, Model.onEvent, Model.onEventProduct, DBEventProduct.getProductId,
          DBEventProduct.setTEnd]
      · simp [emit, hb, Model.onEvent, Model.onEventProduct, DBEvent.getEventProducts,
          DBEvent.setEventProducts]
      · simp only [emit, hb, Model.onEvent, Model.onEventProduct, DBEvent.getEventProducts,
          DBEvent.setEventProducts, Function.update_same, Bool.false_eq_true, if_false]
        apply forall₂_map_of_forall
        intro x _
        by_cases hx : x.getProductId =
            (DBEventProduct.setTEnd (s.model.eventProducts p)
              (du.secondsSinceEpoch s.ui.dateTimeEventTEnd.dateTime)).getProductId
        · rw [if_pos hx]
          refine ⟨rfl, rfl, fun _ => rfl, fun h2 => absurd hx h2⟩
        · rw [if_neg hx]
          refine ⟨rfl, rfl, fun h2 => absurd h2 hx, fun _ => rfl⟩
      · simp [emit, hb]

/-- C7: the product-id handler returns; when the field text differs from the
id of the displayed product, the displayed product gets the text as id (its
times stay), the products of the displayed event keep their number, order and
times, those whose id was the old id get the text as id, the others stay as
they were, and one `eventUpdated` is added; when the text equals the id the
state is left as it was. -/
theorem product_handler (s : State) (e p : Ptr)
    (hb : s.signalsBlocked = false) (he : s.impl.m_DisplayedEvent = some e)
    (hp : s.impl.m_DisplayedEventProduct = some p) :
    ∃ s', leEventProductEditingFinished s = some s' ∧
      (s.ui.leEventProduct.text ≠ (s.model.eventProducts p).getProductId →
        (s'.model.eventProducts p).getProductId = s.ui.leEventProduct.text ∧
        (s'.model.eventProducts p).getTStart = (s.model.eventProducts p).getTStart ∧
        (s'.model.eventProducts p).getTEnd = (s.model.eventProducts p).getTEnd ∧
        (s'.model.events e).getEventProducts.length =
          (s.model.events e).getEventProducts.length ∧
        List.Forall₂ (fun old new =>
            new.getTStart = old.getTStart ∧ new.getTEnd = old.getTEnd ∧
            (old.getProductId = (s.model.eventProducts p).getProductId →
              new.getProductId = s.ui.leEventProduct.text) ∧
            (old.getProductId ≠ (s.model.eventProducts p).getProductId → new = old))
          (s.model.events e).getEventProducts (s'.model.events e).getEventProducts ∧
        s'.emitted = s.emitted ++ [Signal.eventUpdated e]) ∧
      (s.ui.leEventProduct.text = (s.model.eventProducts p).getProductId → s' = s) := by
  by_cases h : s.ui.leEventProduct.text = (s.model.eventProducts p).getProductId
  · exact ⟨s, by simp [leEventProductEditingFinished, hp, h],
      fun hne => absurd h hne, fun _ => rfl⟩
  · have hrun : (leEventProductEditingFinished s).isSome = true := by
      simp only [leEventProductEditingFinished, hp, he, ne_eq, h, not_false_eq_true,
        if_true, Option.isSome_some]
    obtain ⟨s', hs'⟩ := Option.isSome_iff_exists.1 hrun
    refine ⟨s', hs', fun _ => ?_, fun heq => absurd heq h⟩
    simp only [leEventProductEditingFinished, hp, he, ne_eq, h, not_false_eq_true,
      if_true, Option.some.injEq] at hs'
    subst hs'
    refine ⟨?_, ?_, ?_, ?_, ?_, ?_⟩
    · simp [emit, hb, Model.onEvent, Model.onEventProduct, DBEventProduct.getProductId,
        DBEventProduct.setProductId]
    · simp [emit, hb, Model.onEvent, Model.onEventProduct, DBEventProduct.getTStart,
        DBEventProduct.setProductId]
    · simp [emit, hb, Model.onEvent, Model.onEventProduct, DBEventProduct.getTEnd,
        DBEventProduct.setProductId]
    · simp [emit, hb, Model.onEvent, Model.onEventProduct, DBEvent.getEventProducts,
        DBEvent.setEventProducts]
    · simp only [emit, hb, Model.onEvent, Model.onEventProduct, DBEvent.getEventProducts,
        DBEvent.setEventProducts, Function.update_same, Bool.false_eq_true, if_false]
      apply forall₂_map_of_forall
      intro x _
      by_cases hx : x.getProductId = (s.model.eventProducts p).getProductId
      · rw [if_pos hx]
        refine ⟨rfl, rfl, fun _ => rfl, fun h2 => absurd hx h2⟩
      · rw [if_neg hx]
        refine ⟨rfl, rfl, fun h2 => absurd h2 hx, fun _ => rfl⟩
    · simp [emit, hb]

/-! ## Display operations -/

theorem foldl_ids_eq (l : List DBEventProduct) (acc : List QString) :
    l.foldl (fun l evtProduct => l ++ [evtProduct.getProductId]) acc =
      acc ++ l.map (fun evtProduct => evtProduct.getProductId) := by
  induction l generalizing acc with
  | nil => simp
  | cons a l ih => simp [ih]

theorem foldl_tags_eq (l : List QString) (acc : QString) :
    l.foldl (fun l tag => (l ++ tag) ++ [' ']) acc =
      acc ++ (l.map (fun tag => tag ++ [' '])).flatten := by
  induction l generalizing acc with
  | nil => simp
  | cons a l ih =>
    rw [List.foldl_cons, ih, List.map_cons, List.flatten_cons]
    simp only [List.append_assoc]

theorem flatten_tags_getLast (l : List QString) (h : l ≠ []) :
    ((l.map (fun tag => tag ++ [' '])).flatten).getLast? = some ' ' := by
  induction l with
  | nil => exact absurd rfl h
  | cons a l ih =>
    cases l with
    | nil => simp
    | cons b l =>
      have ih2 := ih (by simp)
      rw [List.map_cons, List.flatten_cons, List.getLast?_append, ih2]
      rfl

/-- C4: for a non-null event, `setEvent` returns a state on the event page
that displays the event: name field enabled with the name, product field
disabled with the product ids in order joined by a semicolon, tags field
enabled with every tag followed by one space (so the text ends in a space for
a non-empty tag list and is empty for an empty one), and both time fields
disabled with the start and end time of the event. -/
theorem setEvent_shows (du : DateUtils) (s : State) (e : Ptr) :
    ∃ s', setEvent du s (some e) = some s' ∧
      currentPage s' = Page.EventProperties ∧
      s'.impl.m_DisplayedEvent = some e ∧
      s'.ui.leEventName.enabled = true ∧
      s'.ui.leEventName.text = (s.model.events e).getName ∧
      s'.ui.leEventProduct.enabled = false ∧
      s'.ui.leEventProduct.text =
        List.intercalate [';']
          ((s.model.events e).getEventProducts.map (fun evtProduct => evtProduct.getProductId)) ∧
      s'.ui.leEventTags.enabled = true ∧
      s'.ui.leEventTags.text =
        ((s.model.events e).getTagsNames.map (fun tag => tag ++ [' '])).flatten ∧
      ((s.model.events e).getTagsNames ≠ [] → s'.ui.leEventTags.text.getLast? = some ' ') ∧
      ((s.model.events e).getTagsNames = [] → s'.ui.leEventTags.text = []) ∧
      s'.ui.dateTimeEventTStart.enabled = false ∧
      s'.ui.dateTimeEventTEnd.enabled = false ∧
      s'.ui.dateTimeEventTStart.dateTime = du.dateTime (s.model.events e).getTStart ∧
      s'.ui.dateTimeEventTEnd.dateTime = du.dateTime (s.model.events e).getTEnd := by
  refine ⟨_, rfl, rfl, rfl, rfl, rfl, rfl, ?_, rfl, ?_, ?_, ?_, rfl, rfl, rfl, rfl⟩
  · simp [blockSignals, showPage, join, foldl_ids_eq]
  · exact foldl_tags_eq _ []
  · intro h
    exact (congrArg List.getLast? (foldl_tags_eq _ [])).trans (flatten_tags_getLast _ h)
  · intro h
    simp [blockSignals, showPage, h]

/-- C5: for a non-null event and a non-null event product, `setEventProduct`
returns a state on the event page that displays both: name field disabled
with the name of the event, product field disabled with the id of the product,
tags field disabled and empty, both time fields enabled with the times of the
product.  After `setEvent` as after `setEventProduct` the page is the event
page, the name and tags fields are enabled exactly when the time fields are
disabled, and the product field is disabled. -/
theorem setEventProduct_shows (du : DateUtils) (s : State) (e p : Ptr) :
    (∃ s', setEventProduct du s (some e) (some p) = some s' ∧
      currentPage s' = Page.EventProperties ∧
      s'.impl.m_DisplayedEvent = some e ∧
      s'.impl.m_DisplayedEventProduct = some p ∧
      s'.ui.leEventName.enabled = false ∧
      s'.ui.leEventName.text = (s.model.events e).getName ∧
      s'.ui.leEventProduct.enabled = false ∧
      s'.ui.leEventProduct.text = (s.model.eventProducts p).getProductId ∧
      s'.ui.leEventTags.enabled = false ∧
      s'.ui.leEventTags.text = [] ∧
      s'.ui.dateTimeEventTStart.enabled = true ∧
      s'.ui.dateTimeEventTEnd.enabled = true ∧
      s'.ui.dateTimeEventTStart.dateTime = du.dateTime (s.model.eventProducts p).getTStart ∧
      s'.ui.dateTimeEventTEnd.dateTime = du.dateTime (s.model.eventProducts p).getTEnd) ∧
    (∀ s', setEvent du s (some e) = some s' ∨ setEventProduct du s (some e) (some p) = some s' →
      currentPage s' = Page.EventProperties ∧
      (s'.ui.leEventName.enabled = true ↔ s'.ui.dateTimeEventTStart.enabled = false) ∧
      (s'.ui.leEventName.enabled = true ↔ s'.ui.dateTimeEventTEnd.enabled = false) ∧
      (s'.ui.leEventTags.enabled = true ↔ s'.ui.dateTimeEventTStart.enabled = false) ∧
      (s'.ui.leEventTags.enabled = true ↔ s'.ui.dateTimeEventTEnd.enabled = false) ∧
      s'.ui.leEventProduct.enabled = false) := by
  refine ⟨⟨_, rfl, rfl, rfl, rfl, rfl, rfl, rfl, rfl, rfl, rfl, rfl, rfl, rfl, rfl⟩, ?_⟩
  intro s' h
  rcases h with h | h
  · have h2 : some _ = some s' := h
    injection h2 with h2
    subst h2
    simp [currentPage, blockSignals, showPage]
  · have h2 : some _ = some s' := h
    injection h2 with h2
    subst h2
    simp [currentPage, blockSignals, showPage]

theorem runs_rendered (tags : List QString)
    (h : ∀ t ∈ tags, t ≠ [] ∧ ∀ c ∈ t, isSpace c = false) :
    Runs ((tags.map (fun tag => tag ++ [' '])).flatten) tags := by
  induction tags with
  | nil => exact Runs.done
  | cons a l ih =>
    have ha := h a (List.mem_cons_self _ _)
    have hl := ih (fun t ht => h t (List.mem_cons_of_mem _ ht))
    have hsp : isSpace ' ' = true := by decide
    have := Runs.run a (' ' :: (l.map (fun tag => tag ++ [' '])).flatten) l ha.1 ha.2
      (by intro c hc; simp at hc; rw [← hc]; exact hsp) (Runs.space _ _ _ hsp hl)
    simpa using this

theorem setEvent_some (du : DateUtils) (s : State) (e : Ptr) :
    ∃ s1, setEvent du s (some e) = some s1 ∧
      s1.impl.m_DisplayedEvent = some e ∧
      s1.ui.leEventTags.text =
        ((s.model.events e).getTagsNames.map (fun tag => tag ++ [' '])).flatten ∧
      s1.model = s.model ∧ s1.emitted = s.emitted ∧ s1.signalsBlocked = false :=
  ⟨_, rfl, rfl, foldl_tags_eq _ [], rfl, rfl, rfl⟩

/-- C8: for an event whose tag names are non-empty and free of whitespace,
`setEvent` returns, splitting the text it put into the tags field gives back
the tag names of the event, and the tags handler run on that state returns
the state as it is: the model and the emitted signals are those from before
`setEvent`. -/
theorem tags_roundtrip (du : DateUtils) (s : State) (e : Ptr)
    (h : ∀ t ∈ (s.model.events e).getTagsNames, t ≠ [] ∧ ∀ c ∈ t, isSpace c = false) :
    ∃ s1, setEvent du s (some e) = some s1 ∧
      split s1.ui.leEventTags.text = (s.model.events e).getTagsNames ∧
      leEventTagsEditingFinished s1 = some s1 ∧
      s1.model = s.model ∧ s1.emitted = s.emitted := by
  obtain ⟨s1, hs1, hdisp, htext, hmodel, hemit, _⟩ := setEvent_some du s e
  have hsplit : split s1.ui.leEventTags.text = (s.model.events e).getTagsNames := by
    rw [htext]
    exact runs_unique _ _ _ (runs_split _) (runs_rendered _ h)
  refine ⟨s1, hs1, hsplit, ?_, hmodel, hemit⟩
  have hfold : (split s1.ui.leEventTags.text).foldl (fun l tag => l ++ [tag]) [] =
      (s1.model.events e).getTagsNames := by
    rw [foldl_push_eq, hsplit, hmodel]; rfl
  simp only [leEventTagsEditingFinished, hdisp, hfold, ne_eq, not_true_eq_false, if_false]

/-! ## Refresh -/

theorem refresh_catalogue (du : DateUtils) (s : State)
    (hpage : currentPage s = Page.CatalogueProperties) :
    refresh du s = setCatalogue s s.impl.m_DisplayedCatalogue := by
  unfold currentPage at hpage
  simp [refresh, hpage]

theorem refresh_event (du : DateUtils) (s : State) (e : Ptr)
    (hpage : currentPage s = Page.EventProperties) (hen : s.ui.leEventName.enabled = true)
    (he : s.impl.m_DisplayedEvent = some e) :
    refresh du s = setEvent du s (some e) := by
  unfold currentPage at hpage
  simp [refresh, hpage, hen, he, setEvent]

theorem refresh_eventProduct (du : DateUtils) (s : State) (e : Ptr)
    (hpage : currentPage s = Page.EventProperties) (hen : s.ui.leEventName.enabled = false)
    (he : s.impl.m_DisplayedEvent = some e) :
    refresh du s = setEventProduct du s (some e) s.impl.m_DisplayedEventProduct := by
  unfold currentPage at hpage
  cases hp : s.impl.m_DisplayedEventProduct with
  | none => simp [refresh, hpage, hen, he, hp, setEvent, setEventProduct, blockSignals, showPage]
  | some p =>
    simp [refresh, hpage, hen, he, hp, setEvent, setEventProduct, blockSignals, showPage]

theorem refresh_empty (du : DateUtils) (s : State) (hpage : currentPage s = Page.Empty) :
    refresh du s = some s := by
  unfold currentPage at hpage
  simp [refresh, hpage]

theorem refresh_event_null (du : DateUtils) (s : State)
    (hpage : currentPage s = Page.EventProperties) (he : s.impl.m_DisplayedEvent = none) :
    refresh du s = none := by
  unfold currentPage at hpage
  simp [refresh, hpage, he, setEvent]

/-- The four ways in which `refresh` returns. -/
theorem refresh_cases (du : DateUtils) (s s' : State) (h : refresh du s = some s') :
    (currentPage s = Page.CatalogueProperties ∧
      ∃ c, s.impl.m_DisplayedCatalogue = some c ∧ setCatalogue s (some c) = some s') ∨
    (currentPage s = Page.EventProperties ∧ s.ui.leEventName.enabled = true ∧
      ∃ e, s.impl.m_DisplayedEvent = some e ∧ setEvent du s (some e) = some s') ∨
    (currentPage s = Page.EventProperties ∧ s.ui.leEventName.enabled = false ∧
      ∃ e p, s.impl.m_DisplayedEvent = some e ∧ s.impl.m_DisplayedEventProduct = some p ∧
        setEventProduct du s (some e) (some p) = some s') ∨
    (currentPage s = Page.Empty ∧ s' = s) := by
  cases hpage : currentPage s with
  | Empty =>
    rw [refresh_empty du s hpage] at h
    injection h with h
    exact Or.inr (Or.inr (Or.inr ⟨rfl, h.symm⟩))
  | CatalogueProperties =>
    rw [refresh_catalogue du s hpage] at h
    cases hc : s.impl.m_DisplayedCatalogue with
    | none => rw [hc] at h; simp [setCatalogue] at h
    | some c => rw [hc] at h; exact Or.inl ⟨rfl, c, rfl, h⟩
  | EventProperties =>
    cases he : s.impl.m_DisplayedEvent with
    | none => rw [refresh_event_null du s hpage he] at h; cases h
    | some e =>
      cases hen : s.ui.leEventName.enabled with
      | true =>
        rw [refresh_event du s e hpage hen he] at h
        exact Or.inr (Or.inl ⟨rfl, rfl, e, rfl, h⟩)
      | false =>
        rw [refresh_eventProduct du s e hpage hen he] at h
        cases hp : s.impl.m_DisplayedEventProduct with
        | none => rw [hp] at h; simp [setEventProduct] at h
        | some p => rw [hp] at h; exact Or.inr (Or.inr (Or.inl ⟨rfl, rfl, e, p, rfl, rfl, h⟩))

theorem setCatalogue_eq (s s' : State) (c : Ptr) (h : setCatalogue s (some c) = some s') :
    s' = { s with
      ui := { s.ui with
        stackedWidget := { currentIndex := Page.CatalogueProperties }
        leCatalogueName := { s.ui.leCatalogueName with text := (s.model.catalogues c).getName }
        leCatalogueAuthor :=
          { s.ui.leCatalogueAuthor with text := (s.model.catalogues c).getAuthor } }
      impl := { s.impl with m_DisplayedCatalogue := some c }
      signalsBlocked := false } := by
  have h2 : some _ = some s' := h
  injection h2 with h2
  exact h2.symm

theorem displayedNonNull_setCatalogue (s s' : State) (c : Ptr)
    (h : setCatalogue s (some c) = some s') : DisplayedNonNull s' := by
  rw [setCatalogue_eq s s' c h]
  simp [DisplayedNonNull, currentPage]

theorem displayedNonNull_setEvent (du : DateUtils) (s s' : State) (e : Ptr)
    (h : setEvent du s (some e) = some s') : DisplayedNonNull s' := by
  have h2 : some _ = some s' := h
  injection h2 with h2
  subst h2
  simp [DisplayedNonNull, currentPage, blockSignals, showPage]

theorem displayedNonNull_setEventProduct (du : DateUtils) (s s' : State) (e p : Ptr)
    (h : setEventProduct du s (some e) (some p) = some s') : DisplayedNonNull s' := by
  have h2 : some _ = some s' := h
  injection h2 with h2
  subst h2
  simp [DisplayedNonNull, currentPage, blockSignals, showPage]

theorem displayedNonNull_refresh (du : DateUtils) (s s' : State) (hs : DisplayedNonNull s)
    (h : refresh du s = some s') : DisplayedNonNull s' := by
  rcases refresh_cases du s s' h with ⟨_, c, _, hc⟩ | ⟨_, _, e, _, he⟩ | ⟨_, _, e, p, _, _, hp⟩ |
    ⟨_, heq⟩
  · exact displayedNonNull_setCatalogue s s' c hc
  · exact displayedNonNull_setEvent du s s' e he
  · exact displayedNonNull_setEventProduct du s s' e p hp
  · rw [heq]; exact hs

theorem reachable_displayedNonNull (du : DateUtils) (s : State) (h : Reachable du s) :
    DisplayedNonNull s := by
  induction h with
  | init ui0 model => simp [DisplayedNonNull, currentPage, CatalogueInspectorWidget]
  | setCatalogue s s' c _ h _ => exact displayedNonNull_setCatalogue s s' c h
  | setEvent s s' e _ h _ => exact displayedNonNull_setEvent du s s' e h
  | setEventProduct s s' e p _ h _ => exact displayedNonNull_setEventProduct du s s' e p h
  | refresh s s' _ h ih => exact displayedNonNull_refresh du s s' ih h

theorem displayedNonNull_refresh_isSome (du : DateUtils) (s : State) (hs : DisplayedNonNull s) :
    ∃ s', refresh du s = some s' := by
  obtain ⟨hc, he, hp⟩ := hs
  cases hpage : currentPage s with
  | Empty => exact ⟨s, refresh_empty du s hpage⟩
  | CatalogueProperties =>
    obtain ⟨c, hc⟩ := Option.ne_none_iff_exists'.1 (hc hpage)
    rw [refresh_catalogue du s hpage, hc]
    exact ⟨_, rfl⟩
  | EventProperties =>
    obtain ⟨e, he⟩ := Option.ne_none_iff_exists'.1 (he hpage)
    cases hen : s.ui.leEventName.enabled with
    | true =>
      rw [refresh_event du s e hpage hen he]
      exact ⟨_, rfl⟩
    | false =>
      obtain ⟨p, hp⟩ := Option.ne_none_iff_exists'.1 (hp hpage hen)
      rw [refresh_eventProduct du s e hpage hen he, hp]
      exact ⟨_, rfl⟩

/-- C9: in every state reachable from the constructed widget by
`setCatalogue`, `setEvent`, `setEventProduct` with non-null arguments and by
`refresh`, the catalogue page has a displayed catalogue, the event page has a
displayed event, the event page with the name field disabled has a displayed
event product, and `refresh` returns (it dereferences no null pointer). -/
theorem reachable_refresh_safe (du : DateUtils) (s : State) (h : Reachable du s) :
    (currentPage s = Page.CatalogueProperties → s.impl.m_DisplayedCatalogue ≠ none) ∧
    (currentPage s = Page.EventProperties → s.impl.m_DisplayedEvent ≠ none) ∧
    (currentPage s = Page.EventProperties → s.ui.leEventName.enabled = false →
      s.impl.m_DisplayedEventProduct ≠ none) ∧
    ∃ s', refresh du s = some s' :=
  have hs := reachable_displayedNonNull du s h
  ⟨hs.1, hs.2.1, hs.2.2, displayedNonNull_refresh_isSome du s hs⟩

theorem setEvent_eq (du : DateUtils) (s s' : State) (e : Ptr)
    (h : setEvent du s (some e) = some s') :
    currentPage s' = Page.EventProperties ∧
    eventFlags s' = (true, false, true, false, false) ∧
    s'.ui.leCatalogueName = s.ui.leCatalogueName ∧
    s'.ui.leCatalogueAuthor = s.ui.leCatalogueAuthor ∧
    s'.impl = { s.impl with m_DisplayedEvent := some e } ∧
    s'.signalsBlocked = false ∧ s'.model = s.model ∧ s'.emitted = s.emitted := by
  have h2 : some _ = some s' := h
  injection h2 with h2
  subst h2
  exact ⟨rfl, rfl, rfl, rfl, rfl, rfl, rfl, rfl⟩

theorem setEventProduct_eq (du : DateUtils) (s s' : State) (e p : Ptr)
    (h : setEventProduct du s (some e) (some p) = some s') :
    currentPage s' = Page.EventProperties ∧
    eventFlags s' = (false, false, false, true, true) ∧
    s'.ui.leCatalogueName = s.ui.leCatalogueName ∧
    s'.ui.leCatalogueAuthor = s.ui.leCatalogueAuthor ∧
    s'.impl = { s.impl with m_DisplayedEvent := some e, m_DisplayedEventProduct := some p } ∧
    s'.signalsBlocked = false ∧ s'.model = s.model ∧ s'.emitted = s.emitted := by
  have h2 : some _ = some s' := h
  injection h2 with h2
  subst h2
  exact ⟨rfl, rfl, rfl, rfl, rfl, rfl, rfl, rfl⟩

theorem setCatalogue_frame (s s' : State) (c : Ptr) (h : setCatalogue s (some c) = some s') :
    currentPage s' = Page.CatalogueProperties ∧
    enabledFlags s' = enabledFlags s ∧
    s'.impl = { s.impl with m_DisplayedCatalogue := some c } ∧
    s'.signalsBlocked = false ∧ s'.model = s.model ∧ s'.emitted = s.emitted := by
  rw [setCatalogue_eq s s' c h]
  exact ⟨rfl, rfl, rfl, rfl, rfl, rfl⟩

/-- The display operations and `refresh` change neither the heap nor the
emitted signals. -/
theorem refresh_frame (du : DateUtils) (s s' : State) (h : refresh du s = some s') :
    s'.model = s.model ∧ s'.emitted = s.emitted := by
  rcases refresh_cases du s s' h with ⟨_, c, _, hc⟩ | ⟨_, _, e, _, he⟩ | ⟨_, _, e, p, _, _, hp⟩ |
    ⟨_, heq⟩
  · have := setCatalogue_frame s s' c hc
    exact ⟨this.2.2.2.2.1, this.2.2.2.2.2⟩
  · have := setEvent_eq du s s' e he
    exact ⟨this.2.2.2.2.2.2.1, this.2.2.2.2.2.2.2⟩
  · have := setEventProduct_eq du s s' e p hp
    exact ⟨this.2.2.2.2.2.2.1, this.2.2.2.2.2.2.2⟩
  · rw [heq]; exact ⟨rfl, rfl⟩

theorem refresh_flags (du : DateUtils) (s s' : State) (h : refresh du s = some s')
    (hf : RenderedFlags s) : enabledFlags s' = enabledFlags s := by
  rcases refresh_cases du s s' h with ⟨_, c, _, hc⟩ | ⟨hpage, hen, e, _, he⟩ |
    ⟨hpage, hen, e, p, _, _, hp⟩ | ⟨_, heq⟩
  · exact (setCatalogue_frame s s' c hc).2.1
  · obtain ⟨_, h1, h2, h3, _⟩ := setEvent_eq du s s' e he
    rcases hf hpage with hA | hB
    · simp only [enabledFlags, h1, h2, h3, hA]
    · simp [eventFlags, hen] at hB
  · obtain ⟨_, h1, h2, h3, _⟩ := setEventProduct_eq du s s' e p hp
    rcases hf hpage with hA | hB
    · simp [eventFlags, hen] at hA
    · simp only [enabledFlags, h1, h2, h3, hB]
  · rw [heq]

theorem renderedFlags_refresh (du : DateUtils) (s s' : State) (hs : RenderedFlags s)
    (h : refresh du s = some s') : RenderedFlags s' := by
  rcases refresh_cases du s s' h with ⟨_, c, _, hc⟩ | ⟨_, _, e, _, he⟩ | ⟨_, _, e, p, _, _, hp⟩ |
    ⟨_, heq⟩
  · intro hpage
    rw [(setCatalogue_frame s s' c hc).1] at hpage
    cases hpage
  · exact fun _ => Or.inl (setEvent_eq du s s' e he).2.1
  · exact fun _ => Or.inr (setEventProduct_eq du s s' e p hp).2.1
  · rw [heq]; exact hs

theorem reachable_renderedFlags (du : DateUtils) (s : State) (h : Reachable du s) :
    RenderedFlags s := by
  induction h with
  | init ui0 model =>
    intro hpage
    simp [currentPage, CatalogueInspectorWidget] at hpage
  | setCatalogue s s' c _ h _ =>
    intro hpage
    rw [(setCatalogue_frame s s' c h).1] at hpage
    cases hpage
  | setEvent s s' e _ h _ => exact fun _ => Or.inl (setEvent_eq du s s' e h).2.1
  | setEventProduct s s' e p _ h _ => exact fun _ => Or.inr (setEventProduct_eq du s s' e p h).2.1
  | refresh s s' _ h ih => exact renderedFlags_refresh du s s' ih h

/-- Signals of the inspector are not blocked in a reachable state, so an edit
handler that runs there does emit. -/
theorem reachable_signals_not_blocked (du : DateUtils) (s : State) (h : Reachable du s) :
    s.signalsBlocked = false := by
  induction h with
  | init ui0 model => rfl
  | setCatalogue s s' c _ h _ => exact (setCatalogue_frame s s' c h).2.2.2.1
  | setEvent s s' e _ h _ => exact (setEvent_eq du s s' e h).2.2.2.2.2.1
  | setEventProduct s s' e p _ h _ => exact (setEventProduct_eq du s s' e p h).2.2.2.2.2.1
  | refresh s s' _ h ih =>
    rcases refresh_cases du s s' h with ⟨_, c, _, hc⟩ | ⟨_, _, e, _, he⟩ |
      ⟨_, _, e, p, _, _, hp⟩ | ⟨_, heq⟩
    · exact (setCatalogue_frame s s' c hc).2.2.2.1
    · exact (setEvent_eq du s s' e he).2.2.2.2.2.1
    · exact (setEventProduct_eq du s s' e p hp).2.2.2.2.2.1
    · rw [heq]; exact ih

theorem refresh_idem (du : DateUtils) (s s' : State) (h : refresh du s = some s') :
    refresh du s' = some s' := by
  rcases refresh_cases du s s' h with ⟨_, c, _, hc⟩ | ⟨_, _, e, _, he⟩ | ⟨_, _, e, p, _, _, hp⟩ |
    ⟨hpage, heq⟩
  · have hs := setCatalogue_eq s s' c hc
    have hpage : currentPage s' = Page.CatalogueProperties := by rw [hs]; rfl
    have hdisp : s'.impl.m_DisplayedCatalogue = some c := by rw [hs]
    rw [refresh_catalogue du s' hpage, hdisp]
    rw [hs]
    rfl
  · have h2 : some _ = some s' := he
    injection h2 with h2
    have hpage : currentPage s' = Page.EventProperties := by rw [← h2]; rfl
    have hen : s'.ui.leEventName.enabled = true := by rw [← h2]; rfl
    have hdisp : s'.impl.m_DisplayedEvent = some e := by rw [← h2]; rfl
    rw [refresh_event du s' e hpage hen hdisp]
    rw [← h2]
    rfl
  · have h2 : some _ = some s' := hp
    injection h2 with h2
    have hpage : currentPage s' = Page.EventProperties := by rw [← h2]; rfl
    have hen : s'.ui.leEventName.enabled = false := by rw [← h2]; rfl
    have hdisp : s'.impl.m_DisplayedEvent = some e := by rw [← h2]; rfl
    have hdisp2 : s'.impl.m_DisplayedEventProduct = some p := by rw [← h2]; rfl
    rw [refresh_eventProduct du s' e hpage hen hdisp, hdisp2]
    rw [← h2]
    rfl
  · rw [heq]
    exact refresh_empty du s hpage

/-- C6 (amended): on the catalogue page `refresh` is `setCatalogue` of the
displayed catalogue, on the event page with the name field enabled it is
`setEvent` of the displayed event, on the event page with the name field
disabled it is `setEventProduct` of the displayed event and product, and on
the empty page it returns the state as it is; with all displayed objects
non-null it returns.  Whenever it returns, the page, the enabled flags of the
two catalogue fields and of the event name field are kept and a second
`refresh` changes nothing more.  The enabled flags of all fields are kept
when, on the event page, the event fields have the flags that `setEvent` or
`setEventProduct` leave, and so in every reachable state. -/
theorem refresh_rerenders (du : DateUtils) (s : State) :
    (∀ c, currentPage s = Page.CatalogueProperties → s.impl.m_DisplayedCatalogue = some c →
      refresh du s = setCatalogue s (some c)) ∧
    (∀ e, currentPage s = Page.EventProperties → s.ui.leEventName.enabled = true →
      s.impl.m_DisplayedEvent = some e → refresh du s = setEvent du s (some e)) ∧
    (∀ e p, currentPage s = Page.EventProperties → s.ui.leEventName.enabled = false →
      s.impl.m_DisplayedEvent = some e → s.impl.m_DisplayedEventProduct = some p →
      refresh du s = setEventProduct du s (some e) (some p)) ∧
    (currentPage s = Page.Empty → refresh du s = some s) ∧
    (∀ c e p, s.impl.m_DisplayedCatalogue = some c → s.impl.m_DisplayedEvent = some e →
      s.impl.m_DisplayedEventProduct = some p → ∃ s', refresh du s = some s') ∧
    (∀ s', refresh du s = some s' →
      currentPage s' = currentPage s ∧
      s'.ui.leCatalogueName.enabled = s.ui.leCatalogueName.enabled ∧
      s'.ui.leCatalogueAuthor.enabled = s.ui.leCatalogueAuthor.enabled ∧
      s'.ui.leEventName.enabled = s.ui.leEventName.enabled ∧
      ((currentPage s = Page.EventProperties →
          eventFlags s = (true, false, true, false, false) ∨
          eventFlags s = (false, false, false, true, true)) →
        enabledFlags s' = enabledFlags s) ∧
      (Reachable du s → enabledFlags s' = enabledFlags s) ∧
      refresh du s' = some s') := by
  refine ⟨?_, ?_, ?_, ?_, ?_, ?_⟩
  · intro c hpage hc
    rw [refresh_catalogue du s hpage, hc]
  · intro e hpage hen he
    exact refresh_event du s e hpage hen he
  · intro e p hpage hen he hp
    rw [refresh_eventProduct du s e hpage hen he, hp]
  · exact refresh_empty du s
  · intro c e p hc he hp
    apply displayedNonNull_refresh_isSome
    simp [DisplayedNonNull, hc, he, hp]
  · intro s' h
    refine ⟨?_, ?_, ?_, ?_, fun hf => refresh_flags du s s' h hf,
      fun hr => refresh_flags du s s' h (reachable_renderedFlags du s hr), refresh_idem du s s' h⟩
    · rcases refresh_cases du s s' h with ⟨hpage, c, _, hc⟩ | ⟨hpage, _, e, _, he⟩ |
        ⟨hpage, _, e, p, _, _, hp⟩ | ⟨_, heq⟩
      · rw [hpage, (setCatalogue_frame s s' c hc).1]
      · rw [hpage, (setEvent_eq du s s' e he).1]
      · rw [hpage, (setEventProduct_eq du s s' e p hp).1]
      · rw [heq]
    · rcases refresh_cases du s s' h with ⟨hpage, c, _, hc⟩ | ⟨hpage, _, e, _, he⟩ |
        ⟨hpage, _, e, p, _, _, hp⟩ | ⟨_, heq⟩
      · rw [setCatalogue_eq s s' c hc]
      · rw [(setEvent_eq du s s' e he).2.2.1]
      · rw [(setEventProduct_eq du s s' e p hp).2.2.1]
      · rw [heq]
    · rcases refresh_cases du s s' h with ⟨hpage, c, _, hc⟩ | ⟨hpage, _, e, _, he⟩ |
        ⟨hpage, _, e, p, _, _, hp⟩ | ⟨_, heq⟩
      · rw [setCatalogue_eq s s' c hc]
      · rw [(setEvent_eq du s s' e he).2.2.2.1]
      · rw [(setEventProduct_eq du s s' e p hp).2.2.2.1]
      · rw [heq]
    · rcases refresh_cases du s s' h with ⟨hpage, c, _, hc⟩ | ⟨hpage, hen, e, _, he⟩ |
        ⟨hpage, hen, e, p, _, _, hp⟩ | ⟨_, heq⟩
      · rw [setCatalogue_eq s s' c hc]
      · have := (setEvent_eq du s s' e he).2.1
        simp only [eventFlags, Prod.mk.injEq] at this
        rw [this.1, hen]
      · have := (setEventProduct_eq du s s' e p hp).2.1
        simp only [eventFlags, Prod.mk.injEq] at this
        rw [this.1, hen]
      · rw [heq]

/-- C10: the display operations only read the model.  With non-null
arguments `setCatalogue`, `setEvent` and `setEventProduct` return a state with
the same heap of catalogues, events and event products and the same emitted
signals; so does `showPage`, and so does `refresh` whenever it returns (as it
does when the displayed objects are non-null).  `setCatalogue` keeps the
displayed event and event product, `setEvent` keeps the displayed catalogue
and event product. -/
theorem display_reads_only (du : DateUtils) (s : State) :
    (∀ c, ∃ s', setCatalogue s (some c) = some s' ∧
      s'.model = s.model ∧ s'.emitted = s.emitted ∧
      s'.impl.m_DisplayedEvent = s.impl.m_DisplayedEvent ∧
      s'.impl.m_DisplayedEventProduct = s.impl.m_DisplayedEventProduct) ∧
    (∀ e, ∃ s', setEvent du s (some e) = some s' ∧
      s'.model = s.model ∧ s'.emitted = s.emitted ∧
      s'.impl.m_DisplayedCatalogue = s.impl.m_DisplayedCatalogue ∧
      s'.impl.m_DisplayedEventProduct = s.impl.m_DisplayedEventProduct) ∧
    (∀ e p, ∃ s', setEventProduct du s (some e) (some p) = some s' ∧
      s'.model = s.model ∧ s'.emitted = s.emitted) ∧
    (∀ page, (showPage s page).model = s.model ∧ (showPage s page).emitted = s.emitted) ∧
    (∀ s', refresh du s = some s' → s'.model = s.model ∧ s'.emitted = s.emitted) ∧
    (∀ c e p, s.impl.m_DisplayedCatalogue = some c → s.impl.m_DisplayedEvent = some e →
      s.impl.m_DisplayedEventProduct = some p →
      ∃ s', refresh du s = some s' ∧ s'.model = s.model ∧ s'.emitted = s.emitted) := by
  refine ⟨fun c => ⟨_, rfl, rfl, rfl, rfl, rfl⟩, fun e => ⟨_, rfl, rfl, rfl, rfl, rfl⟩,
    fun e p => ⟨_, rfl, rfl, rfl⟩, fun page => ⟨rfl, rfl⟩, fun s' h => refresh_frame du s s' h, ?_⟩
  intro c e p hc he hp
  have hs : DisplayedNonNull s := by simp [DisplayedNonNull, hc, he, hp]
  obtain ⟨s', h⟩ := displayedNonNull_refresh_isSome du s hs
  exact ⟨s', h, refresh_frame du s s' h⟩

/-! ## Concrete instances -/

theorem plain_text_handlers_witness :
    editedState.signalsBlocked = false ∧
    editedState.impl.m_DisplayedCatalogue = some 1 ∧
    editedState.ui.leCatalogueName.text ≠ (editedState.model.catalogues 1).getName ∧
    ∃ s', leCatalogueNameEditingFinished editedState = some s' ∧
      (s'.model.catalogues 1).getName = "gales".toList ∧
      (s'.model.catalogues 1).getAuthor = "lpp".toList ∧
      s'.emitted = [Signal.catalogueUpdated 1] := by
  have hne : editedState.ui.leCatalogueName.text ≠ (editedState.model.catalogues 1).getName := by
    decide
  obtain ⟨s', hs', hd, _⟩ := (plain_text_handlers editedState rfl).1 1 rfl
  exact ⟨rfl, rfl, hne, s', hs', (hd hne).1, (hd hne).2.1, (hd hne).2.2⟩

theorem tags_handler_witness :
    editedState.signalsBlocked = false ∧
    editedState.impl.m_DisplayedEvent = some 2 ∧
    split editedState.ui.leEventTags.text = ["shock".toList, "bow".toList] ∧
    (editedState.model.events 2).getTagsNames ≠ split editedState.ui.leEventTags.text ∧
    ∃ s', leEventTagsEditingFinished editedState = some s' ∧
      (s'.model.events 2).getTagsNames = split editedState.ui.leEventTags.text ∧
      s'.emitted = [Signal.eventUpdated 2] := by
  have hne : (editedState.model.events 2).getTagsNames ≠ split editedState.ui.leEventTags.text := by
    decide
  obtain ⟨_, _, _, s', hs', hd, _⟩ := tags_handler editedState 2 rfl rfl
  exact ⟨rfl, rfl, by decide, hne, s', hs', (hd hne).1, (hd hne).2.2.2⟩

theorem time_handlers_witness :
    editedState.signalsBlocked = false ∧
    editedState.impl.m_DisplayedEvent = some 2 ∧
    editedState.impl.m_DisplayedEventProduct = some 3 ∧
    sampleDateUtils.secondsSinceEpoch editedState.ui.dateTimeEventTStart.dateTime ≠
      (editedState.model.eventProducts 3).getTStart ∧
    sampleDateUtils.secondsSinceEpoch editedState.ui.dateTimeEventTEnd.dateTime =
      (editedState.model.eventProducts 3).getTEnd ∧
    (∃ s', dateTimeEventTStartEditingFinished sampleDateUtils editedState = some s' ∧
      (s'.model.eventProducts 3).getTStart = 15 ∧
      (s'.model.events 2).getEventProducts.length = 3 ∧
      s'.emitted = [Signal.eventUpdated 2]) ∧
    dateTimeEventTEndEditingFinished sampleDateUtils editedState = some editedState := by
  have hne : sampleDateUtils.secondsSinceEpoch editedState.ui.dateTimeEventTStart.dateTime ≠
      (editedState.model.eventProducts 3).getTStart := by decide
  have heq : sampleDateUtils.secondsSinceEpoch editedState.ui.dateTimeEventTEnd.dateTime =
      (editedState.model.eventProducts 3).getTEnd := by decide
  obtain ⟨⟨s', hs', hd, _⟩, ⟨s2, hs2, _, hsame⟩⟩ :=
    time_handlers sampleDateUtils editedState 2 3 rfl rfl rfl
  refine ⟨rfl, rfl, rfl, hne, heq, ⟨s', hs', (hd hne).1, (hd hne).2.2.2.1, (hd hne).2.2.2.2.2⟩, ?_⟩
  rw [hs2, hsame heq]

theorem product_handler_witness :
    editedState.signalsBlocked = false ∧
    editedState.impl.m_DisplayedEvent = some 2 ∧
    editedState.impl.m_DisplayedEventProduct = some 3 ∧
    editedState.ui.leEventProduct.text ≠ (editedState.model.eventProducts 3).getProductId ∧
    ∃ s', leEventProductEditingFinished editedState = some s' ∧
      (s'.model.eventProducts 3).getProductId = "b_gsm".toList ∧
      (s'.model.events 2).getEventProducts.length = 3 ∧
      s'.emitted = [Signal.eventUpdated 2] := by
  have hne : editedState.ui.leEventProduct.text ≠
      (editedState.model.eventProducts 3).getProductId := by decide
  obtain ⟨s', hs', hd, _⟩ := product_handler editedState 2 3 rfl rfl rfl
  exact ⟨rfl, rfl, rfl, hne, s', hs', (hd hne).1, (hd hne).2.2.2.1, (hd hne).2.2.2.2.2⟩

theorem setEvent_shows_witness :
    (sampleWidget.model.events 2).getTagsNames ≠ [] ∧
    ∃ s', setEvent sampleDateUtils sampleWidget (some 2) = some s' ∧
      s'.ui.leEventName.text = "crossing".toList ∧
      s'.ui.leEventProduct.text = "b_gse;e_gse;b_gse".toList ∧
      s'.ui.leEventTags.text = "shock mms ".toList ∧
      s'.ui.leEventTags.text.getLast? = some ' ' ∧
      s'.ui.dateTimeEventTStart.dateTime = 10000 ∧
      s'.ui.dateTimeEventTEnd.dateTime = 40000 := by
  have hne : (sampleWidget.model.events 2).getTagsNames ≠ [] := by decide
  obtain ⟨s', hs', _, _, _, hname, _, hprod, _, htags, hlast, _, _, _, hts, hte⟩ :=
    setEvent_shows sampleDateUtils sampleWidget 2
  exact ⟨hne, s', hs', hname, hprod, htags, hlast hne, hts, hte⟩

theorem setEventProduct_shows_witness :
    setEventProduct sampleDateUtils sampleWidget (some 2) (some 3) = some productShown ∧
    currentPage productShown = Page.EventProperties ∧
    (productShown.ui.leEventName.enabled = true ↔
      productShown.ui.dateTimeEventTStart.enabled = false) ∧
    productShown.ui.leEventProduct.enabled = false := by
  have h := (setEventProduct_shows sampleDateUtils sampleWidget 2 3).2 productShown (Or.inr rfl)
  exact ⟨rfl, h.1, h.2.1, h.2.2.2.2.2⟩

theorem refresh_rerenders_witness :
    currentPage editedState = Page.EventProperties ∧
    editedState.ui.leEventName.enabled = false ∧
    editedState.impl.m_DisplayedEvent = some 2 ∧
    editedState.impl.m_DisplayedEventProduct = some 3 ∧
    eventFlags editedState = (false, false, false, true, true) ∧
    refresh sampleDateUtils editedState =
      setEventProduct sampleDateUtils editedState (some 2) (some 3) ∧
    (∃ s', refresh sampleDateUtils editedState = some s' ∧
      currentPage s' = Page.EventProperties ∧
      enabledFlags s' = enabledFlags editedState ∧
      refresh sampleDateUtils s' = some s') ∧
    Reachable sampleDateUtils productShown ∧
    (∃ s', refresh sampleDateUtils productShown = some s' ∧
      enabledFlags s' = enabledFlags productShown) := by
  have hreach : Reachable sampleDateUtils productShown :=
    Reachable.setEventProduct _ _ 2 3 (Reachable.init sampleUi sampleModel) rfl
  have h1 := refresh_rerenders sampleDateUtils editedState
  have h2 := refresh_rerenders sampleDateUtils productShown
  obtain ⟨s', hs'⟩ := h1.2.2.2.2.1 1 2 3 rfl rfl rfl
  obtain ⟨hpage, _, _, _, hflags, _, hidem⟩ := h1.2.2.2.2.2 s' hs'
  have hrun : refresh sampleDateUtils productShown = some productShown := rfl
  exact ⟨rfl, rfl, rfl, rfl, rfl, h1.2.2.1 2 3 rfl rfl rfl rfl,
    ⟨s', hs', hpage, hflags (fun _ => Or.inr rfl), hidem⟩, hreach,
    ⟨productShown, hrun, (h2.2.2.2.2.2 productShown hrun).2.2.2.2.2.1 hreach⟩⟩

/-- C6, as stated, fails: in a state with all three displayed objects non-null
that is on the event page with the name field enabled and the tags field
disabled, `refresh` enables the tags field; so `refresh` does not keep the
enabled flag of every field in every state with non-null displayed objects. -/
theorem refresh_flags_counterexample :
    unrenderedState.impl.m_DisplayedCatalogue = some 1 ∧
    unrenderedState.impl.m_DisplayedEvent = some 2 ∧
    unrenderedState.impl.m_DisplayedEventProduct = some 3 ∧
    currentPage unrenderedState = Page.EventProperties ∧
    unrenderedState.ui.leEventName.enabled = true ∧
    unrenderedState.ui.leEventTags.enabled = false ∧
    (refresh sampleDateUtils unrenderedState).map (fun s' => s'.ui.leEventTags.enabled) =
      some true ∧
    ¬ (∀ s s' : State, s.impl.m_DisplayedCatalogue ≠ none → s.impl.m_DisplayedEvent ≠ none →
        s.impl.m_DisplayedEventProduct ≠ none → refresh sampleDateUtils s = some s' →
        enabledFlags s' = enabledFlags s) := by
  refine ⟨rfl, rfl, rfl, rfl, rfl, rfl, rfl, ?_⟩
  intro hall
  have h := hall unrenderedState _ (by decide) (by decide) (by decide) rfl
  have h2 := congrArg (fun f => f.2.2.2.2.1) h
  exact absurd h2 (by decide)

theorem tags_roundtrip_witness :
    (∀ t ∈ (sampleWidget.model.events 2).getTagsNames,
      t ≠ [] ∧ ∀ c ∈ t, isSpace c = false) ∧
    ∃ s1, setEvent sampleDateUtils sampleWidget (some 2) = some s1 ∧
      split s1.ui.leEventTags.text = ["shock".toList, "mms".toList] ∧
      leEventTagsEditingFinished s1 = some s1 := by
  have hclean : ∀ t ∈ (sampleWidget.model.events 2).getTagsNames,
      t ≠ [] ∧ ∀ c ∈ t, isSpace c = false := by decide
  obtain ⟨s1, hs1, hsplit, hrun, _⟩ := tags_roundtrip sampleDateUtils sampleWidget 2 hclean
  exact ⟨hclean, s1, hs1, hsplit, hrun⟩

theorem reachable_refresh_safe_witness :
    Reachable sampleDateUtils productShown ∧
    currentPage productShown = Page.EventProperties ∧
    productShown.ui.leEventName.enabled = false ∧
    productShown.impl.m_DisplayedEvent ≠ none ∧
    productShown.impl.m_DisplayedEventProduct ≠ none ∧
    ∃ s', refresh sampleDateUtils productShown = some s' := by
  have hreach : Reachable sampleDateUtils productShown :=
    Reachable.setEventProduct _ _ 2 3 (Reachable.init sampleUi sampleModel) rfl
  have h := reachable_refresh_safe sampleDateUtils productShown hreach
  exact ⟨hreach, rfl, rfl, h.2.1 rfl, h.2.2.1 rfl rfl, h.2.2.2⟩

theorem display_reads_only_witness :
    editedState.impl.m_DisplayedCatalogue = some 1 ∧
    editedState.impl.m_DisplayedEvent = some 2 ∧
    editedState.impl.m_DisplayedEventProduct = some 3 ∧
    ∃ s', refresh sampleDateUtils editedState = some s' ∧
      s'.model = editedState.model ∧ s'.emitted = [] := by
  obtain ⟨s', hs', hm, he⟩ :=
    (display_reads_only sampleDateUtils editedState).2.2.2.2.2 1 2 3 rfl rfl rfl
  exact ⟨rfl, rfl, rfl, s', hs', hm, he⟩

end SciQLop
